import Mathlib

/-!
Verification of the entity core of the goworld game-server runtime
(package entity: type registry, entity table, client ownership index,
service directory, lifecycle orchestrator, freeze/restore).

The Go source is shallowly embedded: Go maps become association lists or
function maps, map-based sets become duplicate-free lists in enumeration
order, panics become explicit outcome constructors, and the side-effecting
lifecycle steps of createEntity become an explicit list of emitted actions.
-/

set_option maxHeartbeats 1000000

namespace GoworldEntity

/-- Entity identifiers: string-like, globally unique (EntityID of
engine/common). The empty string is the nil value, as in the Go zero value
checked by IsNil. -/
abbrev EntityID := String

/-- Client session identifiers (ClientID of engine/common). -/
abbrev ClientID := String

/-- Association-list lookup: the embedding of a Go map read. A put conses in
front, so the first binding found is the current one (overwrite
semantics). -/
def alookup {β : Type} (k : String) : List (String × β) → Option β
  | [] => none
  | (k2, v) :: rest => if k = k2 then some v else alookup k rest

/-- Go map-based sets (StringSet, EntityIDSet) embedded as duplicate-free
lists; the list order stands for the map's enumeration order. Add is a
no-op on a present element. -/
def setAdd (s : List String) (x : String) : List String :=
  if x ∈ s then s else s ++ [x]

/-- Set deletion: removes every occurrence of the element. -/
def setDel (s : List String) (x : String) : List String :=
  s.filter (fun y => y != x)

/-! ### Service Directory (EntityManager.registeredServices) -/

/-- The service directory: field registeredServices of EntityManager, a map
from service name to a set of entity ids. -/
def ServiceDir := String → Option (List EntityID)

/-- The initial, empty directory (newEntityManager). -/
def emptyServiceDir : ServiceDir := fun _ => none

/-- Source: EntityManager.onDeclareService. If the name is absent a fresh
empty set is installed, then the entity id is added to the (shared) set. -/
def onDeclareService (dir : ServiceDir) (serviceName : String) (eid : EntityID) : ServiceDir :=
  fun n =>
    if n = serviceName then
      match dir serviceName with
      | none => some (setAdd [] eid)
      | some eids => some (setAdd eids eid)
    else dir n

/-- Source: EntityManager.onUndeclareService. The id is deleted from the
set when the name is known; the map entry itself is never removed, even
when the set becomes empty. -/
def onUndeclareService (dir : ServiceDir) (serviceName : String) (eid : EntityID) : ServiceDir :=
  fun n =>
    if n = serviceName then
      match dir serviceName with
      | none => none
      | some eids => some (setDel eids eid)
    else dir n

/-- A declare or undeclare event arriving at the directory
(OnDeclareService / OnUndeclareService ingress). -/
inductive SvcOp
  | declare (serviceName : String) (eid : EntityID)
  | undeclare (serviceName : String) (eid : EntityID)
deriving DecidableEq

/-- Apply one directory event. -/
def applySvcOp (dir : ServiceDir) : SvcOp → ServiceDir
  | .declare n e => onDeclareService dir n e
  | .undeclare n e => onUndeclareService dir n e

/-- Run a sequence of directory events from the empty directory. -/
def runSvcOps (ops : List SvcOp) : ServiceDir :=
  ops.foldl applySvcOp emptyServiceDir

/-- Result of EntityManager.chooseServiceProvider: either the process
aborts in gwlog.Panicf, or an entity id is returned. -/
inductive ChooseResult
  | panicked (msg : String)
  | chosen (eid : EntityID)
deriving DecidableEq

/-- Source: the range loop of chooseServiceProvider, returning the element
at which the decremented random index reaches zero; the [] case is the
trailing return of the empty string (the line commented never goes
here). -/
def chooseLoop (r : Nat) : List EntityID → ChooseResult
  | [] => .chosen ""
  | eid :: rest => if r = 0 then .chosen eid else chooseLoop (r - 1) rest

/-- Source: EntityManager.chooseServiceProvider. An unknown service name
aborts in gwlog.Panicf (the loop is never reached). The random draw
rand.Intn(len(eids)) is passed in as r; the caller guarantees it is below
the set's current size. -/
def chooseServiceProvider (dir : ServiceDir) (serviceName : String) (r : Nat) : ChooseResult :=
  match dir serviceName with
  | none => .panicked ("service not found: " ++ serviceName)
  | some eids => chooseLoop r eids

/-! ### Create causes and the lifecycle trace of createEntity -/

/-- The three create causes (ccCreate, ccMigrate, ccRestore). -/
inductive CreateCause
  | ccCreate
  | ccMigrate
  | ccRestore
deriving DecidableEq

export CreateCause (ccCreate ccMigrate ccRestore)

/-- One observable step performed by createEntity after the entity has been
built and registered. Each constructor names the source call it stands
for. -/
inductive EntityAction
  | putIntoTable
  | loadPersistentData
  | loadMigrateData
  | save
  | restoreTimers
  | setupSaveTimer
  | sendNotifyCreateEntity (eid : EntityID)
  | setClient
  | assignClientQuietly
  | onCreated
  | onMigrateIn
  | onRestored
  | enterSpace (isRestore : Bool)
deriving DecidableEq

/-- Source: the body of createEntity from the entityManager.put call to the
space.enter call, as the ordered list of actions it performs. The type
resolution, id generation and reflective allocation that precede the table
insert carry no branch relevant to the lifecycle trace. The flags stand
for: data != nil, timerData != nil, entity.I.IsPersistent(), client != nil,
space != nil. -/
def createEntityActions (hasSpace : Bool) (entityID : EntityID) (hasData : Bool)
    (hasTimerData : Bool) (isPersistent : Bool) (hasClient : Bool)
    (cause : CreateCause) : List EntityAction :=
  [EntityAction.putIntoTable]
    ++ (if hasData then
          (if cause = ccCreate then [EntityAction.loadPersistentData]
           else [EntityAction.loadMigrateData])
        else [EntityAction.save])
    ++ (if hasTimerData then [EntityAction.restoreTimers] else [])
    ++ (if isPersistent then [EntityAction.setupSaveTimer] else [])
    ++ (if cause = ccCreate ∨ cause = ccRestore then
          [EntityAction.sendNotifyCreateEntity entityID]
        else [])
    ++ (if hasClient then
          (if cause = ccCreate then [EntityAction.setClient]
           else [EntityAction.assignClientQuietly])
        else [])
    ++ (match cause with
        | ccCreate => [EntityAction.onCreated]
        | ccMigrate => [EntityAction.onMigrateIn]
        | ccRestore => [EntityAction.onRestored])
    ++ (if hasSpace then [EntityAction.enterSpace (cause = ccRestore)] else [])

/-- The three mutually exclusive state-materialization actions of
createEntity step 5. -/
def isMaterialization : EntityAction → Bool
  | .loadPersistentData => true
  | .loadMigrateData => true
  | .save => true
  | _ => false

/-! ### The storage-load completion handler of loadEntityLocally -/

/-- A message on the dispatcher send surface, as used by the entity
core. -/
inductive DispatcherMsg
  | notifyCreateEntity (eid : EntityID)
  | notifyDestroyEntity (eid : EntityID)
deriving DecidableEq

/-- A createEntity invocation, recorded by its type name, entity id and
cause. -/
structure CreateCall where
  typeName : String
  eid : EntityID
  cause : CreateCause
deriving DecidableEq

/-- How the storage-load completion handler of loadEntityLocally ends. -/
inductive HandlerOutcome
  | panicked (msg : String)
  | returned
  | createdEntity (call : CreateCall)
deriving DecidableEq

/-- Source: the completion closure installed by loadEntityLocally.
Modelled from the spec where gwlog is concerned: gwlog.Panicf is a fatal
abort (it panics and does not return), as the source itself assumes at
every other call site. Consequently, on a non-nil load error the handler
aborts inside gwlog.Panicf and the SendNotifyDestroyEntity written on the
following source line is unreachable. The pair returned is (dispatcher
messages actually sent, how the handler ended). -/
def loadCompletionHandler (typeName : String) (entityID : EntityID)
    (hasSpace : Bool) (spaceDestroyed : Bool) (err : Option String) :
    List DispatcherMsg × HandlerOutcome :=
  match err with
  | some e =>
      ([], .panicked ("load entity " ++ typeName ++ "." ++ entityID ++ " failed: " ++ e))
  | none =>
      if hasSpace && spaceDestroyed then
        ([DispatcherMsg.notifyDestroyEntity entityID], .returned)
      else
        ([], .createdEntity ⟨typeName, entityID, ccCreate⟩)

/-! ### Freeze (the snapshot builder) -/

/-- Distinguished type name of space entities. Its concrete value is not
exhibited in the excerpt; only equality against it matters, so any fixed
string is faithful. -/
def SPACE_ENTITY_TYPE : String := "__space__"

/-- Attribute key under which a space stores its kind. As for
SPACE_ENTITY_TYPE, only its identity matters. -/
def SPACE_KIND_ATTR_KEY : String := "_K"

/-- The per-entity snapshot record (entityFreezeData): type name, attribute
map (attribute values are modelled as integers, the only reading the
restore path performs on them being typeconv.Int on the space-kind key),
the containing space id, whether a client descriptor is attached, the
opaque timer token, and the optional entering-space record (target space
id). -/
structure EntityFreezeInfo where
  typeName : String
  attrs : List (String × Int)
  spaceID : EntityID
  hasClient : Bool
  hasTimerData : Bool
  esr : Option EntityID
deriving DecidableEq

/-- The freeze snapshot (FreezeData): entities keyed by id, and the service
directory materialized as name to list of ids. -/
structure FreezeData where
  entities : List (EntityID × EntityFreezeInfo)
  services : List (String × List EntityID)
deriving DecidableEq

/-- A resident entity as Freeze sees it: its id, the receivers consulted by
the nil-space check (IsSpaceEntity is the type-name test, spaceKind zero is
the ToSpace().IsNil() test), and the GetFreezeData() payload. -/
structure ResidentEntity where
  id : EntityID
  typeName : String
  spaceKind : Int
  info : EntityFreezeInfo
deriving DecidableEq

/-- The running state Freeze reads: the entity table (in enumeration
order) and the service directory (already in its materialized form; Freeze
copies it set-by-set via ToList). -/
structure GameState where
  entities : List ResidentEntity
  services : List (String × List EntityID)
deriving DecidableEq

/-- Does this resident entity trip the nil-space test of the Freeze loop
(e.IsSpaceEntity() and e.ToSpace().IsNil())? -/
def isNilSpaceEntity (e : ResidentEntity) : Bool :=
  e.typeName == SPACE_ENTITY_TYPE && e.spaceKind == 0

/-- Source: the range loop of Freeze. Accumulates freeze data for every
visited entity and tracks whether a nil space was already found, erroring
on the second one. -/
def freezeLoop (acc : List (EntityID × EntityFreezeInfo)) (found : Bool) :
    List ResidentEntity → Except String (List (EntityID × EntityFreezeInfo) × Bool)
  | [] => .ok (acc, found)
  | e :: rest =>
      if isNilSpaceEntity e then
        if found then .error "found duplicate nil space"
        else freezeLoop (acc ++ [(e.id, e.info)]) true rest
      else freezeLoop (acc ++ [(e.id, e.info)]) found rest

/-- Source: the result computed by Freeze: run the sweep, demand exactly
one nil space, then package the accumulated records with the materialized
service directory. -/
def freezeCompute (st : GameState) : Except String FreezeData :=
  match freezeLoop [] false st.entities with
  | .error msg => .error msg
  | .ok (infos, found) =>
      if !found then .error "nil space not found"
      else .ok { entities := infos, services := st.services }

/-- Source: Freeze. The state component of the result records that the
function performs no mutation of the entity table, ownership index or
service directory (the source only reads them). -/
def Freeze (st : GameState) : GameState × Except String FreezeData :=
  (st, freezeCompute st)

/-! ### RestoreFreezedEntities -/

/-- Modelled from the spec: typeconv.Int coerces an attribute value to an
integer; a missing attribute reads as the zero value. Attribute values are
already integers in this embedding. -/
def typeconvInt (v : Option Int) : Int :=
  match v with
  | some n => n
  | none => 0

/-- The space kind that the restore filter computes for a snapshot record:
for a space entity, typeconv.Int of the SPACE_KIND_ATTR_KEY attribute;
otherwise the declared zero of var spaceKind int64. -/
def spaceKindOf (info : EntityFreezeInfo) : Int :=
  if info.typeName = SPACE_ENTITY_TYPE then typeconvInt (alookup SPACE_KIND_ATTR_KEY info.attrs)
  else 0

/-- An observable event of one restore pass: a createEntity invocation, or
the post.Post of a deferred EnterSpace for an entity frozen mid-entry. -/
inductive RestoreEvent
  | create (call : CreateCall)
  | postEnterSpace (eid : EntityID) (spaceID : EntityID)
deriving DecidableEq

/-- Source: the restoreEntities closure inside RestoreFreezedEntities: one
filtered pass over the snapshot's entities, recreating each match with
cause ccRestore and posting a deferred EnterSpace when an entering-space
record is present. -/
def restoreEntitiesPass (filter : String → Int → Bool) :
    List (EntityID × EntityFreezeInfo) → List RestoreEvent
  | [] => []
  | (eid, info) :: rest =>
      if filter info.typeName (spaceKindOf info) then
        (RestoreEvent.create ⟨info.typeName, eid, ccRestore⟩ ::
          (match info.esr with
           | some sid => [RestoreEvent.postEnterSpace eid sid]
           | none => [])) ++ restoreEntitiesPass filter rest
      else restoreEntitiesPass filter rest

/-- Source: the three phases of RestoreFreezedEntities, with the literal
filter closures of steps 1 to 3. -/
def restorePhases (freeze : FreezeData) : List RestoreEvent :=
  restoreEntitiesPass (fun typeName spaceKind => typeName == SPACE_ENTITY_TYPE && spaceKind == 0)
      freeze.entities
    ++ restoreEntitiesPass
        (fun typeName spaceKind => typeName == SPACE_ENTITY_TYPE && !(spaceKind == 0))
        freeze.entities
    ++ restoreEntitiesPass (fun typeName _ => !(typeName == SPACE_ENTITY_TYPE)) freeze.entities

/-- The createEntity invocations of a restore run, in order. -/
def restoreCreateCalls (freeze : FreezeData) : List CreateCall :=
  (restorePhases freeze).filterMap (fun ev =>
    match ev with
    | .create c => some c
    | .postEnterSpace _ _ => none)

/-- A Go panic value, as the deferred recover of RestoreFreezedEntities
distinguishes it: either a value implementing the error interface, or any
other value. -/
inductive GoPanicVal
  | goError (msg : String)
  | goOther (desc : String)
deriving DecidableEq

/-- How a call of RestoreFreezedEntities ends: a normal return with an
optional error, or a panic propagating to the caller. -/
inductive RestoreOutcome
  | ok (err : Option String)
  | panicked (msg : String)
deriving DecidableEq

/-- Source: the deferred recover block of RestoreFreezedEntities. A body
that panicked with an error value is wrapped by errors.Wrap into the
returned error; on any other panic value the type assertion written as
recover-result dot (error) fails, so the deferred function itself panics
and that panic propagates to the caller. -/
def restoreRecover (body : Except GoPanicVal Unit) : RestoreOutcome :=
  match body with
  | .ok _ => .ok none
  | .error (.goError msg) => .ok (some ("panic during restore: " ++ msg))
  | .error (.goOther desc) =>
      .panicked ("interface conversion: interface is not error: " ++ desc)

/-! ### Type registry: EntityTypeDesc and DefineAttrs -/

/-- Modelled from the source's strings.ToLower, restricted to the ASCII
lowercasing the attribute tags exercise; embedded structurally over the
character list so concrete instances evaluate. -/
def goToLower (s : String) : String :=
  String.mk (s.data.map Char.toLower)

/-- The closed tag set _VALID_ATTR_DEFS, built lowercase by the package
init function. -/
def VALID_ATTR_DEFS : List String := ["client", "allclients", "persistent"]

/-- The attribute-classification part of EntityTypeDesc. The reflective
type handle and the RPC descriptor map carry no attribute information and
are omitted. -/
structure EntityTypeDesc where
  allClientAttrs : List String
  clientAttrs : List String
  persistentAttrs : List String
deriving DecidableEq

/-- The descriptor installed by RegisterEntity: all three attribute sets
start empty. -/
def registerEntityDesc : EntityTypeDesc :=
  { allClientAttrs := [], clientAttrs := [], persistentAttrs := [] }

/-- Source: the inner loop of DefineAttrs over one attribute's tag list,
folding the three flags (isAllClient, isClient, isPersistent). A tag whose
lowercase form is not in the valid set aborts in gwlog.Panicf, embedded as
the error case. -/
def defineAttrFlags : List String → (Bool × Bool × Bool) → Except String (Bool × Bool × Bool)
  | [], flags => .ok flags
  | d :: rest, (isAllClient, isClient, isPersistent) =>
      let d2 := goToLower d
      if d2 ∉ VALID_ATTR_DEFS then
        .error ("invalid property: " ++ d2)
      else if d2 = "allclients" then defineAttrFlags rest (true, true, isPersistent)
      else if d2 = "client" then defineAttrFlags rest (isAllClient, true, isPersistent)
      else if d2 = "persistent" then defineAttrFlags rest (isAllClient, isClient, true)
      else defineAttrFlags rest (isAllClient, isClient, isPersistent)

/-- Source: EntityTypeDesc.DefineAttrs over an attribute-to-tags map,
embedded as an association list. Each attribute is added to each set whose
flag the tag loop raised. -/
def DefineAttrs (desc : EntityTypeDesc) : List (String × List String) → Except String EntityTypeDesc
  | [] => .ok desc
  | (attr, defs) :: rest =>
      match defineAttrFlags defs (false, false, false) with
      | .error e => .error e
      | .ok (isAllClient, isClient, isPersistent) =>
          DefineAttrs
            { allClientAttrs :=
                if isAllClient then setAdd desc.allClientAttrs attr else desc.allClientAttrs,
              clientAttrs :=
                if isClient then setAdd desc.clientAttrs attr else desc.clientAttrs,
              persistentAttrs :=
                if isPersistent then setAdd desc.persistentAttrs attr else desc.persistentAttrs }
            rest

/-- A sequence of DefineAttrs calls applied to one descriptor, as the user
may make any number of them during setup. -/
def runDefineCalls (desc : EntityTypeDesc) :
    List (List (String × List String)) → Except String EntityTypeDesc
  | [] => .ok desc
  | m :: rest =>
      match DefineAttrs desc m with
      | .error e => .error e
      | .ok d => runDefineCalls d rest

/-! ### Entity table and client ownership index -/

/-- A bound game client: session id plus the gate that terminates it. -/
structure GameClient where
  clientid : ClientID
  gateid : Nat
deriving DecidableEq

/-- The part of an Entity the ownership claims read: its bound client
field. -/
structure EntityRec where
  client : Option GameClient
deriving DecidableEq

/-- The EntityManager state the ownership claims range over: the entity
table (an association list; put conses, so lookup sees the newest binding)
and the ownerOfClient index as a function map. -/
structure EMState where
  entities : List (EntityID × EntityRec)
  ownerOfClient : ClientID → Option EntityID

/-- Source: newEntityManager. -/
def initEMState : EMState :=
  { entities := [], ownerOfClient := fun _ => none }

/-- Source: EntityManager.onEntityGetClient. -/
def onEntityGetClient (s : EMState) (entityID : EntityID) (clientid : ClientID) : EMState :=
  { s with ownerOfClient := fun c => if c = clientid then some entityID else s.ownerOfClient c }

/-- Source: EntityManager.onEntityLoseClient. -/
def onEntityLoseClient (s : EMState) (clientid : ClientID) : EMState :=
  { s with ownerOfClient := fun c => if c = clientid then none else s.ownerOfClient c }

/-- Overwrite the client field of the entity stored under the given id,
leaving every other entry untouched (a Go field assignment through the
entity pointer). -/
def setEntityClient (l : List (EntityID × EntityRec)) (entityID : EntityID)
    (v : Option GameClient) : List (EntityID × EntityRec) :=
  l.map (fun q => if q.1 = entityID then (q.1, { client := v }) else q)

/-- Modelled from the spec: Entity.SetClient is not in the excerpt. Per
the spec it runs the full bind protocol: tear down the prior binding of
this client (clearing the previous owner's field) and of this entity's
prior client, then assign the field and record the ownership. -/
def setClientModel (s : EMState) (entityID : EntityID) (cl : GameClient) : EMState :=
  match alookup entityID s.entities with
  | none => s
  | some rec =>
      let s1 :=
        match s.ownerOfClient cl.clientid with
        | some prev => { s with entities := setEntityClient s.entities prev none }
        | none => s
      let s2 :=
        match rec.client with
        | some old => onEntityLoseClient s1 old.clientid
        | none => s1
      let s3 := { s2 with entities := setEntityClient s2.entities entityID (some cl) }
      onEntityGetClient s3 entityID cl.clientid

/-- Source: the client-binding fragment of createEntity: the table insert,
then for cause ccCreate a full SetClient, and for migrate or restore a
quiet field assignment followed by onEntityGetClient. Modelled from the
spec where GenEntityID is concerned: generated ids are globally unique, so
an id already resident is never inserted again (the guard makes that
explicit). -/
def createEntityClientModel (s : EMState) (entityID : EntityID)
    (client : Option GameClient) (cause : CreateCause) : EMState :=
  if (alookup entityID s.entities).isSome then s
  else
    let s1 : EMState := { s with entities := (entityID, { client := none }) :: s.entities }
    match client with
    | none => s1
    | some cl =>
        if cause = ccCreate then setClientModel s1 entityID cl
        else
          let s2 := { s1 with entities := setEntityClient s1.entities entityID (some cl) }
          onEntityGetClient s2 entityID cl.clientid

/-- Modelled from the spec: Entity.Destroy is not in the excerpt. Per spec
invariant 6, destruction clears the client binding (removing the ownership
entry) and removes the entity from the table. -/
def destroyModel (s : EMState) (entityID : EntityID) : EMState :=
  match alookup entityID s.entities with
  | none => s
  | some rec =>
      let s1 :=
        match rec.client with
        | some cl => onEntityLoseClient s cl.clientid
        | none => s
      { s1 with entities := s1.entities.filter (fun p => p.1 != entityID) }

/-- Source: EntityManager.onClientDisconnected. The Go map read yields the
zero value (the empty string) for an unknown client, checked by IsNil.
notifyClientDisconnected is modelled from the spec: it clears the entity's
bound-client field and fires the user callback. The dereference of the
looked-up owner is faithful: the model clears the field only when the
entity is found, and the safety claim is that it always is. -/
def onClientDisconnectedModel (s : EMState) (clientid : ClientID) : EMState :=
  let eid := (s.ownerOfClient clientid).getD ""
  if eid ≠ "" then
    let s1 := onEntityLoseClient s clientid
    { s1 with entities := setEntityClient s1.entities eid none }
  else s

/-- One step of the gate-disconnect sweep at a given table key: read the
current record, and when its client sits on the disconnected gate, drop
the ownership entry and clear the field (notifyClientDisconnected). -/
def gateDiscStep (gateid : Nat) (s : EMState) (entityID : EntityID) : EMState :=
  match alookup entityID s.entities with
  | none => s
  | some rec =>
      match rec.client with
      | some cl =>
          if cl.gateid == gateid then
            let s1 := onEntityLoseClient s cl.clientid
            { s1 with entities := setEntityClient s1.entities entityID none }
          else s
      | none => s

/-- Source: EntityManager.onGateDisconnected: a sweep over the resident
entities, embedded as a fold of the per-key step over the table's key
enumeration. -/
def onGateDisconnectedModel (s : EMState) (gateid : Nat) : EMState :=
  (s.entities.map Prod.fst).foldl (gateDiscStep gateid) s

/-- The events that drive the entity table and the ownership index. -/
inductive EMOp
  | create (entityID : EntityID) (client : Option GameClient) (cause : CreateCause)
  | setClient (entityID : EntityID) (cl : GameClient)
  | destroy (entityID : EntityID)
  | clientDisconnected (clientid : ClientID)
  | gateDisconnected (gateid : Nat)

/-- Apply one event. -/
def applyEMOp (s : EMState) : EMOp → EMState
  | .create e c k => createEntityClientModel s e c k
  | .setClient e cl => setClientModel s e cl
  | .destroy e => destroyModel s e
  | .clientDisconnected c => onClientDisconnectedModel s c
  | .gateDisconnected g => onGateDisconnectedModel s g

/-- Run an event sequence from the initial manager state. -/
def runEMOps (ops : List EMOp) : EMState :=
  ops.foldl applyEMOp initEMState

/-- The ownership consistency invariant: every client the index maps to an
entity is the bound client of that entity, which is resident. -/
def OwnerInv (s : EMState) : Prop :=
  ∀ c e, s.ownerOfClient c = some e →
    ∃ rec, alookup e s.entities = some rec ∧ ∃ cl, rec.client = some cl ∧ cl.clientid = c

/-! ## Theorems -/

/-- Claim C4: in createEntity, the state-materialization branch invokes
LoadPersistentData exactly when data is non-nil and the cause is Create,
LoadMigrateData exactly when data is non-nil and the cause is Migrate or
Restore, and Save exactly when data is nil; exactly one of the three
happens on every call. -/
theorem C4_materialization_branch (hasSpace : Bool) (entityID : EntityID)
    (hasData hasTimerData isPersistent hasClient : Bool) (cause : CreateCause) :
    ((createEntityActions hasSpace entityID hasData hasTimerData isPersistent hasClient
        cause).filter isMaterialization).length = 1 ∧
    (EntityAction.loadPersistentData ∈
        createEntityActions hasSpace entityID hasData hasTimerData isPersistent hasClient cause ↔
      hasData = true ∧ cause = ccCreate) ∧
    (EntityAction.loadMigrateData ∈
        createEntityActions hasSpace entityID hasData hasTimerData isPersistent hasClient cause ↔
      hasData = true ∧ (cause = ccMigrate ∨ cause = ccRestore)) ∧
    (EntityAction.save ∈
        createEntityActions hasSpace entityID hasData hasTimerData isPersistent hasClient cause ↔
      hasData = false) := by
  cases hasData <;> cases cause <;> cases hasTimerData <;> cases isPersistent <;>
    cases hasClient <;> cases hasSpace <;>
    simp [createEntityActions, isMaterialization]

/-- Claim C5: createEntity sends NotifyCreateEntity to the dispatcher if
and only if the cause is Create or Restore; a migrate-in never
notifies. -/
theorem C5_notify_create_iff (hasSpace : Bool) (entityID : EntityID)
    (hasData hasTimerData isPersistent hasClient : Bool) (cause : CreateCause) :
    EntityAction.sendNotifyCreateEntity entityID ∈
        createEntityActions hasSpace entityID hasData hasTimerData isPersistent hasClient cause ↔
      (cause = ccCreate ∨ cause = ccRestore) := by
  cases hasData <;> cases cause <;> cases hasTimerData <;> cases isPersistent <;>
    cases hasClient <;> cases hasSpace <;>
    simp [createEntityActions]

/-- Claim C2 (code bug): on a storage-load completion with a non-nil
error, the handler aborts in gwlog.Panicf before the SendNotifyDestroyEntity
written on the following line, so no dispatcher message is sent and no
entity is inserted; the documented behaviour (notify the dispatcher, skip
the insert) is not what the code does. -/
theorem C2_load_failure_panics_without_notify (typeName : String) (entityID : EntityID)
    (hasSpace spaceDestroyed : Bool) (e : String) :
    loadCompletionHandler typeName entityID hasSpace spaceDestroyed (some e) =
      ([], HandlerOutcome.panicked
        ("load entity " ++ typeName ++ "." ++ entityID ++ " failed: " ++ e)) := by
  rfl

/-- Claim C7, counterexample: a restore-phase panic whose value does not
implement the error interface is not returned as an error; the recovery
block's type assertion fails and the resulting panic propagates to the
caller. -/
theorem C7_counterexample :
    restoreRecover (Except.error (GoPanicVal.goOther "runtime error: index out of range")) =
      RestoreOutcome.panicked
        ("interface conversion: interface is not error: runtime error: index out of range") := by
  rfl

/-- Claim C7, amended: a panic during restore whose value implements the
error interface is caught and returned as an error wrapping the cause, and
a normal completion returns no error; but a panic carrying a non-error
value makes the recovery block itself panic, and that panic propagates to
the caller. -/
theorem C7_restore_recover_amended :
    (∀ msg, restoreRecover (Except.error (GoPanicVal.goError msg)) =
      RestoreOutcome.ok (some ("panic during restore: " ++ msg))) ∧
    (∀ desc, ∃ m, restoreRecover (Except.error (GoPanicVal.goOther desc)) =
      RestoreOutcome.panicked m) ∧
    restoreRecover (Except.ok ()) = RestoreOutcome.ok none := by
  refine ⟨fun msg => rfl, fun desc => ⟨_, rfl⟩, rfl⟩

/-- Claim C3, counterexample: declaring a provider and then undeclaring it
leaves the service name in the directory, now mapping to the empty set;
the entry is not removed on last-undeclare. -/
theorem C3_counterexample :
    runSvcOps [SvcOp.declare "s" "e1", SvcOp.undeclare "s" "e1"] "s" = some [] ∧
    runSvcOps [SvcOp.declare "s" "e1", SvcOp.undeclare "s" "e1"] "s" ≠ none := by
  refine ⟨by decide, by decide⟩

/-- One directory event changes which names are present exactly when it is
a declare of a new name; an undeclare never removes an entry. -/
theorem applySvcOp_isSome (dir : ServiceDir) (op : SvcOp) (n : String) :
    ((applySvcOp dir op) n).isSome = true ↔
      ((dir n).isSome = true ∨ ∃ e, op = SvcOp.declare n e) := by
  cases op with
  | declare m e =>
      by_cases h : n = m
      · subst h
        simp only [applySvcOp, onDeclareService, if_pos rfl]
        cases hd : dir n <;> simp [SvcOp.declare.injEq]
      · simp only [applySvcOp, onDeclareService, if_neg h]
        constructor
        · exact fun hs => Or.inl hs
        · rintro (hs | ⟨e2, he2⟩)
          · exact hs
          · injection he2 with h1 h2
            exact absurd h1.symm h
  | undeclare m e =>
      by_cases h : n = m
      · subst h
        simp only [applySvcOp, onUndeclareService, if_pos rfl]
        cases hd : dir n <;> simp
      · simp only [applySvcOp, onUndeclareService, if_neg h]
        simp

/-- A name is present after a run of directory events over some starting
directory iff it was present before or some event of the run declares
it. -/
theorem svcRun_isSome_aux (ops : List SvcOp) :
    ∀ (dir : ServiceDir) (n : String),
      ((ops.foldl applySvcOp dir) n).isSome = true ↔
        ((dir n).isSome = true ∨ ∃ e, SvcOp.declare n e ∈ ops) := by
  induction ops with
  | nil => intro dir n; simp
  | cons op rest ih =>
      intro dir n
      rw [List.foldl_cons, ih, applySvcOp_isSome]
      constructor
      · rintro (⟨h | ⟨e, he⟩⟩ | ⟨e, he⟩)
        · exact Or.inl h
        · exact Or.inr ⟨e, by simp [he]⟩
        · exact Or.inr ⟨e, List.mem_cons_of_mem _ he⟩
      · rintro (h | ⟨e, he⟩)
        · exact Or.inl (Or.inl h)
        · rcases List.mem_cons.mp he with h1 | h2
          · exact Or.inl (Or.inr ⟨e, h1.symm⟩)
          · exact Or.inr ⟨e, h2⟩

/-- Claim C3, amended: Undeclare removes the provider from the set but
never removes the service-name entry; after any sequence of declare and
undeclare events from the empty directory, a service name is present in
the directory iff the sequence contains a Declare for it — in particular,
undeclaring the last provider leaves the name mapped to the empty set
rather than deleting it. -/
theorem C3_undeclare_keeps_entry (ops : List SvcOp) (n : String) :
    ((runSvcOps ops) n).isSome = true ↔ ∃ e, SvcOp.declare n e ∈ ops := by
  rw [runSvcOps, svcRun_isSome_aux]
  simp [emptyServiceDir]

/-- The selection loop returns the element at the drawn index whenever the
index is below the set's size. -/
theorem chooseLoop_get : ∀ (eids : List EntityID) (r : Nat) (h : r < eids.length),
    chooseLoop r eids = ChooseResult.chosen (eids.get ⟨r, h⟩) := by
  intro eids
  induction eids with
  | nil => intro r h; exact absurd h (by simp)
  | cons x rest ih =>
      intro r h
      cases r with
      | zero => rfl
      | succ k =>
          have hk : k < rest.length := Nat.lt_of_succ_lt_succ h
          simp only [chooseLoop, if_neg (Nat.succ_ne_zero k)]
          simpa using ih k hk

/-- An entity id outside the set is never selected by any in-range
draw. -/
theorem chooseLoop_count_zero (eids : List EntityID) (e : EntityID) (he : e ∉ eids) :
    ((List.range eids.length).countP
      (fun r => chooseLoop r eids == ChooseResult.chosen e)) = 0 := by
  rw [List.countP_eq_zero]
  intro r hr
  have hlt : r < eids.length := List.mem_range.mp hr
  rw [chooseLoop_get eids r hlt]
  simp only [beq_iff_eq, ChooseResult.chosen.injEq, decide_eq_true_eq]
  intro hEq
  exact he (hEq ▸ eids.get_mem r hlt)

/-- Over a duplicate-free provider set, each member is selected by exactly
one of the equally likely draws below the set's size. -/
theorem chooseLoop_count_one : ∀ (eids : List EntityID), eids.Nodup → ∀ e ∈ eids,
    ((List.range eids.length).countP
      (fun r => chooseLoop r eids == ChooseResult.chosen e)) = 1 := by
  intro eids
  induction eids with
  | nil => intro _ e he; exact absurd he (by simp)
  | cons x rest ih =>
      intro hnd e he
      have hx : x ∉ rest := (List.nodup_cons.mp hnd).1
      have hndr : rest.Nodup := (List.nodup_cons.mp hnd).2
      have hshift :
          ((List.range rest.length).map Nat.succ).countP
              (fun r => chooseLoop r (x :: rest) == ChooseResult.chosen e) =
            (List.range rest.length).countP
              (fun r => chooseLoop r rest == ChooseResult.chosen e) := by
        rw [List.countP_map]
        rfl
      have hrange : List.range (x :: rest).length =
          0 :: (List.range rest.length).map Nat.succ := by
        simp [List.range_succ_eq_map]
      rw [hrange, List.countP_cons, hshift]
      rcases List.mem_cons.mp he with rfl | hmem
      · have h0 : chooseLoop 0 (e :: rest) == ChooseResult.chosen e := by
          simp [chooseLoop]
        rw [chooseLoop_count_zero rest e hx]
        simp [h0]
      · have hne : x ≠ e := fun hEq => hx (hEq ▸ hmem)
        have h0 : (chooseLoop 0 (x :: rest) == ChooseResult.chosen e) = false := by
          simp [chooseLoop, hne]
        rw [ih hndr e hmem]
        simp [h0]

/-- Claim C8: ChooseProvider on an unknown service name aborts in
gwlog.Panicf; on a known name, a draw below the set's size selects exactly
the provider reached at that index, so over a duplicate-free provider set
each member is selected by exactly one of the equally likely draws — a
uniform selection — and the trailing fallback return is never the result
of an in-range draw. -/
theorem C8_choose_provider (dir : ServiceDir) (serviceName : String) :
    (dir serviceName = none →
      ∀ r, chooseServiceProvider dir serviceName r =
        ChooseResult.panicked ("service not found: " ++ serviceName)) ∧
    (∀ eids, dir serviceName = some eids →
      (∀ r (h : r < eids.length),
        chooseServiceProvider dir serviceName r = ChooseResult.chosen (eids.get ⟨r, h⟩)) ∧
      (eids.Nodup → ∀ e ∈ eids,
        ((List.range eids.length).countP
          (fun r => chooseServiceProvider dir serviceName r == ChooseResult.chosen e)) = 1)) := by
  constructor
  · intro hnone r
    simp [chooseServiceProvider, hnone]
  · intro eids hsome
    constructor
    · intro r h
      simp [chooseServiceProvider, hsome, chooseLoop_get eids r h]
    · intro hnd e he
      have : ∀ r, (chooseServiceProvider dir serviceName r == ChooseResult.chosen e) =
          (chooseLoop r eids == ChooseResult.chosen e) := by
        intro r; simp [chooseServiceProvider, hsome]
      simp only [this]
      exact chooseLoop_count_one eids hnd e he

/-- A concrete service directory exercising C8. -/
def c8dir : ServiceDir :=
  fun n => if n = "match" then some ["e1", "e2", "e3"] else none

/-- Witness for C8 on a concrete directory: the unknown name aborts, the
draw 1 over the three known providers selects the second, and exactly one
of the three draws selects e2. -/
theorem C8_choose_provider_witness :
    (chooseServiceProvider c8dir "nosuch" 0 =
      ChooseResult.panicked ("service not found: " ++ "nosuch")) ∧
    (chooseServiceProvider c8dir "match" 1 =
      ChooseResult.chosen ((["e1", "e2", "e3"] : List EntityID).get ⟨1, by decide⟩)) ∧
    ((List.range (["e1", "e2", "e3"] : List EntityID).length).countP
      (fun r => chooseServiceProvider c8dir "match" r == ChooseResult.chosen "e2")) = 1 := by
  refine ⟨(C8_choose_provider c8dir "nosuch").1 (by decide) 0,
    ((C8_choose_provider c8dir "match").2 ["e1", "e2", "e3"] (by decide)).1 1 (by decide),
    ((C8_choose_provider c8dir "match").2 ["e1", "e2", "e3"] (by decide)).2 (by decide) "e2"
      (by decide)⟩

/-- Project the createEntity invocation out of a restore event. -/
def createOfEvent : RestoreEvent → Option CreateCall
  | .create c => some c
  | .postEnterSpace _ _ => none

/-- One filtered restore pass recreates exactly the snapshot records the
filter matches, in snapshot order, each with cause ccRestore. -/
theorem restoreEntitiesPass_calls (filter : String → Int → Bool) :
    ∀ (l : List (EntityID × EntityFreezeInfo)),
      (restoreEntitiesPass filter l).filterMap createOfEvent =
        (l.filter (fun p => filter p.2.typeName (spaceKindOf p.2))).map
          (fun p => ⟨p.2.typeName, p.1, ccRestore⟩) := by
  intro l
  induction l with
  | nil => rfl
  | cons hd rest ih =>
      rcases hd with ⟨eid, info⟩
      by_cases h : filter info.typeName (spaceKindOf info) = true
      · simp only [restoreEntitiesPass, if_pos h, List.filter_cons, h, List.map_cons]
        cases hesr : info.esr <;>
          simp [List.filterMap_cons, List.filterMap_append, createOfEvent, ih]
      · have h2 : filter info.typeName (spaceKindOf info) = false :=
          Bool.eq_false_iff.mpr h
        simp only [restoreEntitiesPass, h2, if_neg (by simp [h2] : ¬ (filter info.typeName (spaceKindOf info) = true)), List.filter_cons]
        simpa [h2] using ih

/-- Claim C1: RestoreFreezedEntities recreates the snapshot's entities in
three filtered passes, in order — first the nil-space (a space-typed
record with space kind zero), then every other space, then every
non-space entity — and every recreation in every phase is a createEntity
call with cause Restore. -/
theorem C1_restore_three_phases (freeze : FreezeData) :
    restoreCreateCalls freeze =
      ((freeze.entities.filter
          (fun p => p.2.typeName == SPACE_ENTITY_TYPE && spaceKindOf p.2 == 0)).map
        (fun p => ⟨p.2.typeName, p.1, ccRestore⟩))
      ++ ((freeze.entities.filter
          (fun p => p.2.typeName == SPACE_ENTITY_TYPE && !(spaceKindOf p.2 == 0))).map
        (fun p => ⟨p.2.typeName, p.1, ccRestore⟩))
      ++ ((freeze.entities.filter (fun p => !(p.2.typeName == SPACE_ENTITY_TYPE))).map
        (fun p => ⟨p.2.typeName, p.1, ccRestore⟩)) ∧
    ∀ call ∈ restoreCreateCalls freeze, call.cause = ccRestore := by
  have heq : restoreCreateCalls freeze =
      ((freeze.entities.filter
          (fun p => p.2.typeName == SPACE_ENTITY_TYPE && spaceKindOf p.2 == 0)).map
        (fun p => ⟨p.2.typeName, p.1, ccRestore⟩))
      ++ ((freeze.entities.filter
          (fun p => p.2.typeName == SPACE_ENTITY_TYPE && !(spaceKindOf p.2 == 0))).map
        (fun p => ⟨p.2.typeName, p.1, ccRestore⟩))
      ++ ((freeze.entities.filter (fun p => !(p.2.typeName == SPACE_ENTITY_TYPE))).map
        (fun p => ⟨p.2.typeName, p.1, ccRestore⟩)) := by
    show (restorePhases freeze).filterMap createOfEvent = _
    rw [restorePhases, List.filterMap_append, List.filterMap_append,
      restoreEntitiesPass_calls, restoreEntitiesPass_calls, restoreEntitiesPass_calls]
  refine ⟨heq, ?_⟩
  intro call hc
  rw [heq] at hc
  rcases List.mem_append.mp hc with h12 | h3
  · rcases List.mem_append.mp h12 with h1 | h2
    · rcases List.mem_map.mp h1 with ⟨p, _, hp⟩
      rw [← hp]
    · rcases List.mem_map.mp h2 with ⟨p, _, hp⟩
      rw [← hp]
  · rcases List.mem_map.mp h3 with ⟨p, _, hp⟩
    rw [← hp]

/-- A concrete snapshot with a nil-space, one other space and one player,
exercising the three restore phases. -/
def c1freeze : FreezeData :=
  { entities :=
      [("p", { typeName := "Player", attrs := [], spaceID := "s1",
               hasClient := false, hasTimerData := false, esr := none }),
       ("s1", { typeName := SPACE_ENTITY_TYPE, attrs := [(SPACE_KIND_ATTR_KEY, 1)],
                spaceID := "", hasClient := false, hasTimerData := false, esr := none }),
       ("n", { typeName := SPACE_ENTITY_TYPE, attrs := [(SPACE_KIND_ATTR_KEY, 0)],
               spaceID := "", hasClient := false, hasTimerData := false, esr := none })],
    services := [] }

/-- Witness for C1 on a concrete snapshot: the calls come out nil-space
first, then the other space, then the player — even though the snapshot
lists them in the opposite order — and the call picked from the run has
cause Restore. -/
theorem C1_restore_three_phases_witness :
    restoreCreateCalls c1freeze =
      [⟨SPACE_ENTITY_TYPE, "n", ccRestore⟩, ⟨SPACE_ENTITY_TYPE, "s1", ccRestore⟩,
        ⟨"Player", "p", ccRestore⟩] ∧
    (⟨"Player", "p", ccRestore⟩ : CreateCall).cause = ccRestore := by
  refine ⟨by decide, (C1_restore_three_phases c1freeze).2 ⟨"Player", "p", ccRestore⟩ (by decide)⟩

/-- The number of nil-space entities among the residents. -/
def nilSpaceCount (st : GameState) : Nat :=
  st.entities.countP (fun e => isNilSpaceEntity e)

/-- Full characterization of the Freeze sweep: it errors exactly when the
nil spaces seen (including one already credited) exceed one, and otherwise
accumulates the freeze record of every visited entity in iteration
order. -/
theorem freezeLoop_spec :
    ∀ (l : List ResidentEntity) (acc : List (EntityID × EntityFreezeInfo)) (found : Bool),
      freezeLoop acc found l =
        if l.countP (fun e => isNilSpaceEntity e) + found.toNat ≤ 1 then
          Except.ok (acc ++ l.map (fun e => (e.id, e.info)),
            found || l.any (fun e => isNilSpaceEntity e))
        else Except.error "found duplicate nil space" := by
  intro l
  induction l with
  | nil =>
      intro acc found
      cases found <;> simp [freezeLoop]
  | cons e rest ih =>
      intro acc found
      by_cases hnil : isNilSpaceEntity e = true
      · cases found with
        | true =>
            have hcount : ¬ ((e :: rest).countP (fun x => isNilSpaceEntity x)
                + (true : Bool).toNat ≤ 1) := by
              rw [List.countP_cons]
              simp only [hnil, if_true, Bool.toNat_true]
              omega
            rw [if_neg hcount]
            simp [freezeLoop, hnil]
        | false =>
            have hunfold : freezeLoop acc false (e :: rest) =
                freezeLoop (acc ++ [(e.id, e.info)]) true rest := by
              simp [freezeLoop, hnil]
            rw [hunfold, ih, List.countP_cons]
            simp only [hnil, if_true, Bool.toNat_true, Bool.toNat_false, List.any_cons,
              Bool.false_or, Bool.true_or, List.map_cons]
            by_cases hc : rest.countP (fun x => isNilSpaceEntity x) = 0
            · rw [if_pos (by omega), if_pos (by omega)]
              have hany : rest.any (fun x => isNilSpaceEntity x) = false := by
                rw [Bool.eq_false_iff]
                intro hany
                rcases List.any_eq_true.mp hany with ⟨a, ha, hpa⟩
                have : 0 < rest.countP (fun x => isNilSpaceEntity x) :=
                  List.countP_pos_iff.mpr ⟨a, ha, hpa⟩
                omega
              simp [hany]
            · rw [if_neg (by omega), if_neg (by omega)]
      · have hnil2 : isNilSpaceEntity e = false := Bool.eq_false_iff.mpr hnil
        have hunfold : freezeLoop acc found (e :: rest) =
            freezeLoop (acc ++ [(e.id, e.info)]) found rest := by
          simp [freezeLoop, hnil2]
        rw [hunfold, ih, List.countP_cons]
        simp [hnil2]

/-- Claim C6: Freeze mutates nothing; it returns an error whenever the
count of resident nil-space entities is zero or above one, and with exactly
one nil-space it returns the snapshot holding every resident entity's
freeze data together with the full service directory. -/
theorem C6_freeze (st : GameState) :
    (Freeze st).1 = st ∧
    (nilSpaceCount st = 1 →
      (Freeze st).2 = .ok
        { entities := st.entities.map (fun e => (e.id, e.info)), services := st.services }) ∧
    (nilSpaceCount st ≠ 1 → ∃ msg, (Freeze st).2 = .error msg) := by
  have hcount : st.entities.countP (fun e => isNilSpaceEntity e) = nilSpaceCount st := rfl
  refine ⟨rfl, ?_, ?_⟩
  · intro h1
    have hany : st.entities.any (fun e => isNilSpaceEntity e) = true := by
      rw [List.any_eq_true]
      have hpos : 0 < st.entities.countP (fun e => isNilSpaceEntity e) := by
        rw [hcount, h1]
        omega
      exact List.countP_pos_iff.mp hpos
    have h2 : (Freeze st).2 = freezeCompute st := rfl
    rw [h2]
    unfold freezeCompute
    rw [freezeLoop_spec, if_pos (by rw [hcount, h1]; simp)]
    simp [hany]
  · intro h1
    have h2 : (Freeze st).2 = freezeCompute st := rfl
    rw [h2]
    unfold freezeCompute
    rw [freezeLoop_spec]
    by_cases hc : st.entities.countP (fun e => isNilSpaceEntity e) = 0
    · rw [if_pos (by rw [hc]; simp)]
      have hany : st.entities.any (fun e => isNilSpaceEntity e) = false := by
        rw [Bool.eq_false_iff]
        intro hany
        rcases List.any_eq_true.mp hany with ⟨a, ha, hpa⟩
        have : 0 < st.entities.countP (fun e => isNilSpaceEntity e) :=
          List.countP_pos_iff.mpr ⟨a, ha, hpa⟩
        omega
      exact ⟨"nil space not found", by simp [hany]⟩
    · have hge : 2 ≤ st.entities.countP (fun e => isNilSpaceEntity e) := by
        rw [hcount]
        rw [hcount] at hc
        omega
      rw [if_neg (by simp; omega)]
      exact ⟨"found duplicate nil space", rfl⟩

/-- A snapshot payload for the concrete freeze witness. -/
def c6info : EntityFreezeInfo :=
  { typeName := SPACE_ENTITY_TYPE, attrs := [(SPACE_KIND_ATTR_KEY, 0)], spaceID := "",
    hasClient := false, hasTimerData := false, esr := none }

/-- A resident set with exactly one nil-space. -/
def c6StateOk : GameState :=
  { entities :=
      [{ id := "nilspace", typeName := SPACE_ENTITY_TYPE, spaceKind := 0, info := c6info },
       { id := "p1", typeName := "Player", spaceKind := 0,
         info := { c6info with typeName := "Player" } }],
    services := [("match", ["p1"])] }

/-- A resident set with a duplicate nil-space. -/
def c6StateDup : GameState :=
  { entities :=
      [{ id := "nilspace", typeName := SPACE_ENTITY_TYPE, spaceKind := 0, info := c6info },
       { id := "nilspace2", typeName := SPACE_ENTITY_TYPE, spaceKind := 0, info := c6info }],
    services := [] }

/-- Witness for C6: on a resident set with exactly one nil-space, Freeze
returns the full snapshot; with a duplicate nil-space it returns an
error. -/
theorem C6_freeze_witness :
    ((Freeze c6StateOk).2 = .ok
      { entities := c6StateOk.entities.map (fun e => (e.id, e.info)),
        services := c6StateOk.services }) ∧
    (∃ msg, (Freeze c6StateDup).2 = .error msg) := by
  refine ⟨(C6_freeze c6StateOk).2.1 (by decide), (C6_freeze c6StateDup).2.2 (by decide)⟩

/-- Membership after a set add. -/
theorem mem_setAdd {s : List String} {x y : String} :
    y ∈ setAdd s x ↔ y ∈ s ∨ y = x := by
  unfold setAdd
  by_cases h : x ∈ s
  · rw [if_pos h]
    constructor
    · exact Or.inl
    · rintro (hy | rfl)
      · exact hy
      · exact h
  · rw [if_neg h]
    simp [List.mem_append]

/-- Adding an element only grows a set. -/
theorem subset_setAdd (s : List String) (x : String) : s ⊆ setAdd s x :=
  fun _ hy => mem_setAdd.mpr (Or.inl hy)

/-- Set add is monotone with respect to inclusion. -/
theorem setAdd_subset_setAdd {s t : List String} (h : s ⊆ t) (x : String) :
    setAdd s x ⊆ setAdd t x := by
  intro y hy
  rcases mem_setAdd.mp hy with hy2 | rfl
  · exact subset_setAdd t x (h hy2)
  · exact mem_setAdd.mpr (Or.inr rfl)

/-- The tag loop preserves the implication from the all-clients flag to the
client flag: the only tag that raises the former raises the latter too. -/
theorem defineAttrFlags_imp :
    ∀ (defs : List String) (a c p a2 c2 p2 : Bool),
      defineAttrFlags defs (a, c, p) = .ok (a2, c2, p2) →
      (a = true → c = true) → (a2 = true → c2 = true) := by
  intro defs
  induction defs with
  | nil =>
      intro a c p a2 c2 p2 h hac
      simp only [defineAttrFlags, Except.ok.injEq, Prod.mk.injEq] at h
      obtain ⟨rfl, rfl, rfl⟩ := h
      exact hac
  | cons d rest ih =>
      intro a c p a2 c2 p2 h hac
      simp only [defineAttrFlags] at h
      split at h
      · exact absurd h (by simp)
      · split at h
        · exact ih _ _ _ _ _ _ h (fun _ => rfl)
        · split at h
          · exact ih _ _ _ _ _ _ h (fun _ => rfl)
          · split at h
            · exact ih _ _ _ _ _ _ h hac
            · exact ih _ _ _ _ _ _ h hac

/-- The tag loop never lowers a flag. -/
theorem defineAttrFlags_mono :
    ∀ (defs : List String) (a c p a2 c2 p2 : Bool),
      defineAttrFlags defs (a, c, p) = .ok (a2, c2, p2) →
      (a = true → a2 = true) ∧ (c = true → c2 = true) := by
  intro defs
  induction defs with
  | nil =>
      intro a c p a2 c2 p2 h
      simp only [defineAttrFlags, Except.ok.injEq, Prod.mk.injEq] at h
      obtain ⟨rfl, rfl, rfl⟩ := h
      exact ⟨id, id⟩
  | cons d rest ih =>
      intro a c p a2 c2 p2 h
      simp only [defineAttrFlags] at h
      split at h
      · exact absurd h (by simp)
      · split at h
        · have hr := ih _ _ _ _ _ _ h
          exact ⟨fun _ => hr.1 rfl, fun _ => hr.2 rfl⟩
        · split at h
          · have hr := ih _ _ _ _ _ _ h
            exact ⟨hr.1, fun _ => hr.2 rfl⟩
          · split at h
            · exact ih _ _ _ _ _ _ h
            · exact ih _ _ _ _ _ _ h

/-- A tag list containing allclients (case-insensitively) raises both the
all-clients flag and the client flag. -/
theorem defineAttrFlags_allclients :
    ∀ (defs : List String) (a c p a2 c2 p2 : Bool),
      defineAttrFlags defs (a, c, p) = .ok (a2, c2, p2) →
      "allclients" ∈ defs.map goToLower →
      a2 = true ∧ c2 = true := by
  intro defs
  induction defs with
  | nil =>
      intro a c p a2 c2 p2 _ hmem
      exact absurd hmem (by simp)
  | cons d rest ih =>
      intro a c p a2 c2 p2 h hmem
      have hmem2 : "allclients" = goToLower d ∨ "allclients" ∈ rest.map goToLower := by
        simpa using hmem
      simp only [defineAttrFlags] at h
      split at h
      · exact absurd h (by simp)
      · split at h
        · have hr := defineAttrFlags_mono _ _ _ _ _ _ _ h
          exact ⟨hr.1 rfl, hr.2 rfl⟩
        · rename_i hnotall
          rcases hmem2 with hhd | htl
          · exact absurd hhd.symm hnotall
          · split at h
            · exact ih _ _ _ _ _ _ h htl
            · split at h
              · exact ih _ _ _ _ _ _ h htl
              · exact ih _ _ _ _ _ _ h htl

/-- DefineAttrs preserves the inclusion of the all-clients set in the
client set. -/
theorem DefineAttrs_subset :
    ∀ (l : List (String × List String)) (desc desc2 : EntityTypeDesc),
      DefineAttrs desc l = .ok desc2 →
      desc.allClientAttrs ⊆ desc.clientAttrs →
      desc2.allClientAttrs ⊆ desc2.clientAttrs := by
  intro l
  induction l with
  | nil =>
      intro desc desc2 h hsub
      simp only [DefineAttrs, Except.ok.injEq] at h
      exact h ▸ hsub
  | cons hd rest ih =>
      rcases hd with ⟨attr, defs⟩
      intro desc desc2 h hsub
      simp only [DefineAttrs] at h
      cases hflag : defineAttrFlags defs (false, false, false) with
      | error e =>
          rw [hflag] at h
          exact absurd h (by simp)
      | ok flags =>
          obtain ⟨a, c, p⟩ := flags
          rw [hflag] at h
          have hac : a = true → c = true :=
            defineAttrFlags_imp defs false false false a c p hflag (by simp)
          refine ih _ _ h ?_
          cases a with
          | true =>
              rw [hac rfl]
              simp only [if_true]
              exact setAdd_subset_setAdd hsub attr
          | false =>
              simp only [Bool.false_eq_true, if_false]
              cases c with
              | true =>
                  simp only [if_true]
                  exact fun y hy => subset_setAdd _ attr (hsub hy)
              | false =>
                  simp only [Bool.false_eq_true, if_false]
                  exact hsub

/-- DefineAttrs only grows the all-clients and client sets. -/
theorem DefineAttrs_mono :
    ∀ (l : List (String × List String)) (desc desc2 : EntityTypeDesc),
      DefineAttrs desc l = .ok desc2 →
      desc.allClientAttrs ⊆ desc2.allClientAttrs ∧ desc.clientAttrs ⊆ desc2.clientAttrs := by
  intro l
  induction l with
  | nil =>
      intro desc desc2 h
      simp only [DefineAttrs, Except.ok.injEq] at h
      exact h ▸ ⟨fun _ hy => hy, fun _ hy => hy⟩
  | cons hd rest ih =>
      rcases hd with ⟨attr, defs⟩
      intro desc desc2 h
      simp only [DefineAttrs] at h
      cases hflag : defineAttrFlags defs (false, false, false) with
      | error e =>
          rw [hflag] at h
          exact absurd h (by simp)
      | ok flags =>
          obtain ⟨a, c, p⟩ := flags
          rw [hflag] at h
          have hr := ih _ _ h
          constructor
          · refine fun y hy => hr.1 ?_
            cases a <;> simp only [Bool.false_eq_true, if_false, if_true] <;>
              first
                | exact hy
                | exact subset_setAdd _ attr hy
          · refine fun y hy => hr.2 ?_
            cases c <;> simp only [Bool.false_eq_true, if_false, if_true] <;>
              first
                | exact hy
                | exact subset_setAdd _ attr hy

/-- An attribute tagged allclients in the processed map lands in both the
all-clients set and the client set of the resulting descriptor. -/
theorem DefineAttrs_allclients_mem :
    ∀ (l : List (String × List String)) (desc desc2 : EntityTypeDesc)
      (attr : String) (defs : List String),
      DefineAttrs desc l = .ok desc2 →
      (attr, defs) ∈ l →
      "allclients" ∈ defs.map goToLower →
      attr ∈ desc2.allClientAttrs ∧ attr ∈ desc2.clientAttrs := by
  intro l
  induction l with
  | nil =>
      intro desc desc2 attr defs _ hmem
      exact absurd hmem (by simp)
  | cons hd rest ih =>
      rcases hd with ⟨attr2, defs2⟩
      intro desc desc2 attr defs h hmem htag
      simp only [DefineAttrs] at h
      cases hflag : defineAttrFlags defs2 (false, false, false) with
      | error e =>
          rw [hflag] at h
          exact absurd h (by simp)
      | ok flags =>
          obtain ⟨a, c, p⟩ := flags
          rw [hflag] at h
          rcases List.mem_cons.mp hmem with hhd | htl
          · injection hhd with h1 h2
            subst h1
            subst h2
            have hflags := defineAttrFlags_allclients defs false false false a c p hflag htag
            obtain ⟨rfl, rfl⟩ := hflags
            have hr := DefineAttrs_mono rest _ _ h
            constructor
            · refine hr.1 ?_
              simp only [if_true]
              exact mem_setAdd.mpr (Or.inr rfl)
            · refine hr.2 ?_
              simp only [if_true]
              exact mem_setAdd.mpr (Or.inr rfl)
          · exact ih _ _ attr defs h htl htag

/-- A sequence of DefineAttrs calls preserves the inclusion. -/
theorem runDefineCalls_subset :
    ∀ (calls : List (List (String × List String))) (desc desc2 : EntityTypeDesc),
      runDefineCalls desc calls = .ok desc2 →
      desc.allClientAttrs ⊆ desc.clientAttrs →
      desc2.allClientAttrs ⊆ desc2.clientAttrs := by
  intro calls
  induction calls with
  | nil =>
      intro desc desc2 h hsub
      simp only [runDefineCalls, Except.ok.injEq] at h
      exact h ▸ hsub
  | cons m rest ih =>
      intro desc desc2 h hsub
      simp only [runDefineCalls] at h
      cases hcall : DefineAttrs desc m with
      | error e =>
          rw [hcall] at h
          exact absurd h (by simp)
      | ok d =>
          rw [hcall] at h
          exact ih _ _ h (DefineAttrs_subset m desc d hcall hsub)

/-- A sequence of DefineAttrs calls only grows the two client-visibility
sets. -/
theorem runDefineCalls_mono :
    ∀ (calls : List (List (String × List String))) (desc desc2 : EntityTypeDesc),
      runDefineCalls desc calls = .ok desc2 →
      desc.allClientAttrs ⊆ desc2.allClientAttrs ∧ desc.clientAttrs ⊆ desc2.clientAttrs := by
  intro calls
  induction calls with
  | nil =>
      intro desc desc2 h
      simp only [runDefineCalls, Except.ok.injEq] at h
      exact h ▸ ⟨fun _ hy => hy, fun _ hy => hy⟩
  | cons m rest ih =>
      intro desc desc2 h
      simp only [runDefineCalls] at h
      cases hcall : DefineAttrs desc m with
      | error e =>
          rw [hcall] at h
          exact absurd h (by simp)
      | ok d =>
          rw [hcall] at h
          have h1 := DefineAttrs_mono m desc d hcall
          have h2 := ih _ _ h
          exact ⟨fun y hy => h2.1 (h1.1 hy), fun y hy => h2.2 (h1.2 hy)⟩

/-- An attribute tagged allclients in any call of a successful sequence is
a member of both client-visibility sets of the final descriptor. -/
theorem runDefineCalls_mem :
    ∀ (calls : List (List (String × List String))) (desc d : EntityTypeDesc),
      runDefineCalls desc calls = .ok d →
      ∀ m ∈ calls, ∀ p ∈ m, "allclients" ∈ p.2.map goToLower →
        p.1 ∈ d.allClientAttrs ∧ p.1 ∈ d.clientAttrs := by
  intro calls
  induction calls with
  | nil =>
      intro desc d _ m hm
      exact absurd hm (by simp)
  | cons m2 rest ih =>
      intro desc d h m hm p hp htag
      simp only [runDefineCalls] at h
      cases hcall : DefineAttrs desc m2 with
      | error e =>
          rw [hcall] at h
          exact absurd h (by simp)
      | ok d1 =>
          rw [hcall] at h
          rcases List.mem_cons.mp hm with rfl | htl
          · have hmem := DefineAttrs_allclients_mem m desc d1 p.1 p.2 hcall
              (by simpa using hp) htag
            have hmono := runDefineCalls_mono rest d1 d h
            exact ⟨hmono.1 hmem.1, hmono.2 hmem.2⟩
          · exact ih d1 d h m htl p hp htag

/-- Claim C9: after any sequence of successful DefineAttrs calls on a
freshly registered descriptor, the all-clients attribute set is included
in the client attribute set; every attribute tagged allclients in any of
the calls is a member of both sets, and no step adds to the all-clients
set without adding to the client set (the inclusion holds at the end of
every such sequence). -/
theorem C9_allclient_subset_client :
    ∀ (calls : List (List (String × List String))) (d : EntityTypeDesc),
      runDefineCalls registerEntityDesc calls = .ok d →
      d.allClientAttrs ⊆ d.clientAttrs ∧
      (∀ m ∈ calls, ∀ p ∈ m, "allclients" ∈ p.2.map goToLower →
        p.1 ∈ d.allClientAttrs ∧ p.1 ∈ d.clientAttrs) := by
  intro calls d h
  exact ⟨runDefineCalls_subset calls registerEntityDesc d h (by simp [registerEntityDesc]),
    runDefineCalls_mem calls registerEntityDesc d h⟩

/-- A concrete pair of DefineAttrs calls for the C9 witness, using the
mixed-case tags the user-facing API accepts. -/
def c9calls : List (List (String × List String)) :=
  [[("name", ["AllClients", "Persistent"])], [("hp", ["Client"])]]

/-- The descriptor these calls produce. -/
def c9desc : EntityTypeDesc :=
  { allClientAttrs := ["name"], clientAttrs := ["name", "hp"], persistentAttrs := ["name"] }

/-- Witness for C9 on a concrete call sequence: the run succeeds, the
all-clients set is included in the client set, and the allclients-tagged
attribute is in both. -/
theorem C9_allclient_subset_client_witness :
    c9desc.allClientAttrs ⊆ c9desc.clientAttrs ∧
    "name" ∈ c9desc.allClientAttrs ∧ "name" ∈ c9desc.clientAttrs := by
  have h := C9_allclient_subset_client c9calls c9desc (by rfl)
  exact ⟨h.1,
    h.2 [("name", ["AllClients", "Persistent"])] (by decide)
      ("name", ["AllClients", "Persistent"]) (by decide) (by decide)⟩

/-- Field assignment at one key leaves lookups at other keys unchanged and
overwrites the record seen at that key. -/
theorem alookup_setEntityClient :
    ∀ (l : List (EntityID × EntityRec)) (entityID e : EntityID) (v : Option GameClient),
      alookup e (setEntityClient l entityID v) =
        if e = entityID then (alookup e l).map (fun _ => { client := v }) else alookup e l := by
  intro l entityID e v
  induction l with
  | nil => by_cases h : e = entityID <;> simp [setEntityClient, alookup, h]
  | cons hd rest ih =>
      rcases hd with ⟨k, rec⟩
      by_cases hk : k = entityID
      · have hstep : setEntityClient ((k, rec) :: rest) entityID v =
            (k, ({ client := v } : EntityRec)) :: setEntityClient rest entityID v := by
          simp [setEntityClient, hk]
        rw [hstep]
        by_cases he : e = k
        · have hei : e = entityID := he.trans hk
          have h1 : alookup e ((k, ({ client := v } : EntityRec)) ::
              setEntityClient rest entityID v) = some { client := v } := by
            simp [alookup, he]
          have h2 : alookup e ((k, rec) :: rest) = some rec := by
            simp [alookup, he]
          rw [h1, if_pos hei, h2]
          rfl
        · have h1 : alookup e ((k, ({ client := v } : EntityRec)) ::
              setEntityClient rest entityID v) = alookup e (setEntityClient rest entityID v) := by
            simp [alookup, he]
          have h2 : alookup e ((k, rec) :: rest) = alookup e rest := by
            simp [alookup, he]
          rw [h1, h2, ih]
      · have hstep : setEntityClient ((k, rec) :: rest) entityID v =
            (k, rec) :: setEntityClient rest entityID v := by
          simp [setEntityClient, hk]
        rw [hstep]
        by_cases he : e = k
        · have hei : ¬ e = entityID := fun h => hk (he.symm.trans h)
          have h1 : alookup e ((k, rec) :: setEntityClient rest entityID v) = some rec := by
            simp [alookup, he]
          have h2 : alookup e ((k, rec) :: rest) = some rec := by
            simp [alookup, he]
          rw [h1, if_neg hei, h2]
        · have h1 : alookup e ((k, rec) :: setEntityClient rest entityID v) =
              alookup e (setEntityClient rest entityID v) := by
            simp [alookup, he]
          have h2 : alookup e ((k, rec) :: rest) = alookup e rest := by
            simp [alookup, he]
          rw [h1, h2, ih]

/-- Deleting one key from the table leaves lookups at other keys
unchanged. -/
theorem alookup_filter_ne :
    ∀ (l : List (EntityID × EntityRec)) (entityID e : EntityID), e ≠ entityID →
      alookup e (l.filter (fun p => p.1 != entityID)) = alookup e l := by
  intro l entityID e hne
  induction l with
  | nil => rfl
  | cons hd rest ih =>
      rcases hd with ⟨k, rec⟩
      by_cases hk : k = entityID
      · subst hk
        have : ((k, rec).1 != k) = false := by simp
        simp only [List.filter_cons, this, alookup]
        rw [if_neg hne]
        exact ih
      · have : ((k, rec).1 != entityID) = true := by simpa using hk
        simp only [List.filter_cons, this, alookup]
        by_cases he : e = k
        · subst he; simp [alookup]
        · simp only [alookup, if_neg he]
          exact ih

/-- Under the ownership invariant, an entity has at most one owning
client. -/
theorem ownerInv_uniq {s : EMState} (hinv : OwnerInv s) :
    ∀ c1 c2 e, s.ownerOfClient c1 = some e → s.ownerOfClient c2 = some e → c1 = c2 := by
  intro c1 c2 e h1 h2
  obtain ⟨r1, hr1, cl1, hcl1, hc1⟩ := hinv c1 e h1
  obtain ⟨r2, hr2, cl2, hcl2, hc2⟩ := hinv c2 e h2
  rw [hr1] at hr2
  injection hr2 with hr
  subst hr
  rw [hcl1] at hcl2
  injection hcl2 with hcl
  subst hcl
  rw [← hc1, ← hc2]

/-- The full SetClient bind protocol preserves the ownership
invariant. -/
theorem ownerInv_setClient (s : EMState) (eid : EntityID) (cl : GameClient)
    (hinv : OwnerInv s) : OwnerInv (setClientModel s eid cl) := by
  cases hrec : alookup eid s.entities with
  | none =>
      intro c e h
      simp only [setClientModel, hrec] at h ⊢
      exact hinv c e h
  | some rec =>
      cases hprev : s.ownerOfClient cl.clientid with
      | none =>
          cases hold : rec.client with
          | none =>
              intro c e h
              simp only [setClientModel, hrec, hprev, hold, onEntityGetClient,
                onEntityLoseClient] at h ⊢
              by_cases hc : c = cl.clientid
              · rw [if_pos hc] at h
                injection h with he
                subst he
                refine ⟨{ client := some cl }, ?_, cl, rfl, hc.symm⟩
                rw [alookup_setEntityClient, if_pos rfl, hrec]
                rfl
              · rw [if_neg hc] at h
                obtain ⟨rec2, hrec2, cl2, hcl2, hclc⟩ := hinv c e h
                have heid : e ≠ eid := by
                  intro heq
                  rw [heq] at hrec2
                  have hrr := hrec.symm.trans hrec2
                  injection hrr with hrr2
                  rw [← hrr2, hold] at hcl2
                  exact Option.noConfusion hcl2
                rw [alookup_setEntityClient, if_neg heid]
                exact ⟨rec2, hrec2, cl2, hcl2, hclc⟩
          | some old =>
              intro c e h
              simp only [setClientModel, hrec, hprev, hold, onEntityGetClient,
                onEntityLoseClient] at h ⊢
              by_cases hc : c = cl.clientid
              · rw [if_pos hc] at h
                injection h with he
                subst he
                refine ⟨{ client := some cl }, ?_, cl, rfl, hc.symm⟩
                rw [alookup_setEntityClient, if_pos rfl, hrec]
                rfl
              · rw [if_neg hc] at h
                by_cases hco : c = old.clientid
                · rw [if_pos hco] at h
                  exact Option.noConfusion h
                · rw [if_neg hco] at h
                  obtain ⟨rec2, hrec2, cl2, hcl2, hclc⟩ := hinv c e h
                  have heid : e ≠ eid := by
                    intro heq
                    rw [heq] at hrec2
                    have hrr := hrec.symm.trans hrec2
                    injection hrr with hrr2
                    rw [← hrr2, hold] at hcl2
                    injection hcl2 with h3
                    rw [← h3] at hclc
                    exact hco hclc.symm
                  rw [alookup_setEntityClient, if_neg heid]
                  exact ⟨rec2, hrec2, cl2, hcl2, hclc⟩
      | some prev =>
          cases hold : rec.client with
          | none =>
              intro c e h
              simp only [setClientModel, hrec, hprev, hold, onEntityGetClient,
                onEntityLoseClient] at h ⊢
              by_cases hc : c = cl.clientid
              · rw [if_pos hc] at h
                injection h with he
                subst he
                refine ⟨{ client := some cl }, ?_, cl, rfl, hc.symm⟩
                rw [alookup_setEntityClient, if_pos rfl, alookup_setEntityClient]
                by_cases hep : eid = prev
                · rw [hep] at hrec
                  simp [hep, hrec]
                · simp [hep, hrec]
              · rw [if_neg hc] at h
                obtain ⟨rec2, hrec2, cl2, hcl2, hclc⟩ := hinv c e h
                have heid : e ≠ eid := by
                  intro heq
                  rw [heq] at hrec2
                  have hrr := hrec.symm.trans hrec2
                  injection hrr with hrr2
                  rw [← hrr2, hold] at hcl2
                  exact Option.noConfusion hcl2
                have hprevne : e ≠ prev := by
                  intro heq
                  have h2 : s.ownerOfClient cl.clientid = some e := by
                    rw [hprev, heq]
                  exact hc (ownerInv_uniq hinv c cl.clientid e h h2)
                rw [alookup_setEntityClient, if_neg heid, alookup_setEntityClient,
                  if_neg hprevne]
                exact ⟨rec2, hrec2, cl2, hcl2, hclc⟩
          | some old =>
              intro c e h
              simp only [setClientModel, hrec, hprev, hold, onEntityGetClient,
                onEntityLoseClient] at h ⊢
              by_cases hc : c = cl.clientid
              · rw [if_pos hc] at h
                injection h with he
                subst he
                refine ⟨{ client := some cl }, ?_, cl, rfl, hc.symm⟩
                rw [alookup_setEntityClient, if_pos rfl, alookup_setEntityClient]
                by_cases hep : eid = prev
                · rw [hep] at hrec
                  simp [hep, hrec]
                · simp [hep, hrec]
              · rw [if_neg hc] at h
                by_cases hco : c = old.clientid
                · rw [if_pos hco] at h
                  exact Option.noConfusion h
                · rw [if_neg hco] at h
                  obtain ⟨rec2, hrec2, cl2, hcl2, hclc⟩ := hinv c e h
                  have heid : e ≠ eid := by
                    intro heq
                    rw [heq] at hrec2
                    have hrr := hrec.symm.trans hrec2
                    injection hrr with hrr2
                    rw [← hrr2, hold] at hcl2
                    injection hcl2 with h3
                    rw [← h3] at hclc
                    exact hco hclc.symm
                  have hprevne : e ≠ prev := by
                    intro heq
                    have h2 : s.ownerOfClient cl.clientid = some e := by
                      rw [hprev, heq]
                    exact hc (ownerInv_uniq hinv c cl.clientid e h h2)
                  rw [alookup_setEntityClient, if_neg heid, alookup_setEntityClient,
                    if_neg hprevne]
                  exact ⟨rec2, hrec2, cl2, hcl2, hclc⟩

/-- The client-binding fragment of createEntity preserves the ownership
invariant. -/
theorem ownerInv_create (s : EMState) (eid : EntityID) (client : Option GameClient)
    (cause : CreateCause) (hinv : OwnerInv s) :
    OwnerInv (createEntityClientModel s eid client cause) := by
  cases hpre : alookup eid s.entities with
  | some rec =>
      have hx : createEntityClientModel s eid client cause = s := by
        simp [createEntityClientModel, hpre]
      rw [hx]
      exact hinv
  | none =>
      have hinv1 : OwnerInv { s with entities := (eid, { client := none }) :: s.entities } := by
        intro c e h
        obtain ⟨rec2, hrec2, cl2, hcl2, hclc⟩ := hinv c e h
        have hne : e ≠ eid := by
          intro heq
          rw [heq, hpre] at hrec2
          exact Option.noConfusion hrec2
        refine ⟨rec2, ?_, cl2, hcl2, hclc⟩
        simpa [alookup, hne] using hrec2
      cases client with
      | none =>
          have hx : createEntityClientModel s eid none cause =
              { s with entities := (eid, { client := none }) :: s.entities } := by
            simp [createEntityClientModel, hpre]
          rw [hx]
          exact hinv1
      | some cl =>
          by_cases hcause : cause = ccCreate
          · have hx : createEntityClientModel s eid (some cl) cause =
                setClientModel { s with entities := (eid, { client := none }) :: s.entities }
                  eid cl := by
              simp [createEntityClientModel, hpre, hcause]
            rw [hx]
            exact ownerInv_setClient _ eid cl hinv1
          · have hx : createEntityClientModel s eid (some cl) cause =
                onEntityGetClient
                  { s with entities :=
                      setEntityClient ((eid, { client := none }) :: s.entities) eid (some cl) }
                  eid cl.clientid := by
              simp [createEntityClientModel, hpre, hcause]
            rw [hx]
            intro c e h
            simp only [onEntityGetClient] at h ⊢
            by_cases hc : c = cl.clientid
            · rw [if_pos hc] at h
              injection h with he
              subst he
              refine ⟨{ client := some cl }, ?_, cl, rfl, hc.symm⟩
              rw [alookup_setEntityClient, if_pos rfl]
              simp [alookup]
            · rw [if_neg hc] at h
              obtain ⟨rec2, hrec2, cl2, hcl2, hclc⟩ := hinv c e h
              have hne : e ≠ eid := by
                intro heq
                rw [heq, hpre] at hrec2
                exact Option.noConfusion hrec2
              rw [alookup_setEntityClient, if_neg hne]
              refine ⟨rec2, ?_, cl2, hcl2, hclc⟩
              simpa [alookup, hne] using hrec2

/-- The modelled Destroy preserves the ownership invariant: clearing the
binding removes the only index entry that could point at the removed
entity. -/
theorem ownerInv_destroy (s : EMState) (eid : EntityID) (hinv : OwnerInv s) :
    OwnerInv (destroyModel s eid) := by
  cases hrec : alookup eid s.entities with
  | none =>
      have hx : destroyModel s eid = s := by simp [destroyModel, hrec]
      rw [hx]
      exact hinv
  | some rec =>
      cases hold : rec.client with
      | none =>
          intro c e h
          simp only [destroyModel, hrec, hold] at h ⊢
          obtain ⟨rec2, hrec2, cl2, hcl2, hclc⟩ := hinv c e h
          have hne : e ≠ eid := by
            intro heq
            rw [heq] at hrec2
            have h2 := hrec.symm.trans hrec2
            injection h2 with h3
            rw [← h3, hold] at hcl2
            exact Option.noConfusion hcl2
          rw [alookup_filter_ne _ _ _ hne]
          exact ⟨rec2, hrec2, cl2, hcl2, hclc⟩
      | some cl =>
          intro c e h
          simp only [destroyModel, hrec, hold, onEntityLoseClient] at h ⊢
          by_cases hc : c = cl.clientid
          · rw [if_pos hc] at h
            exact Option.noConfusion h
          · rw [if_neg hc] at h
            obtain ⟨rec2, hrec2, cl2, hcl2, hclc⟩ := hinv c e h
            have hne : e ≠ eid := by
              intro heq
              rw [heq] at hrec2
              have h2 := hrec.symm.trans hrec2
              injection h2 with h3
              rw [← h3, hold] at hcl2
              injection hcl2 with h4
              rw [← h4] at hclc
              exact hc hclc.symm
            rw [alookup_filter_ne _ _ _ hne]
            exact ⟨rec2, hrec2, cl2, hcl2, hclc⟩

/-- The client-disconnect handler preserves the ownership invariant. -/
theorem ownerInv_clientDisc (s : EMState) (clientid : ClientID) (hinv : OwnerInv s) :
    OwnerInv (onClientDisconnectedModel s clientid) := by
  cases hcl : s.ownerOfClient clientid with
  | none =>
      have hx : onClientDisconnectedModel s clientid = s := by
        simp [onClientDisconnectedModel, hcl]
      rw [hx]
      exact hinv
  | some eid =>
      by_cases heid : eid = ""
      · have hx : onClientDisconnectedModel s clientid = s := by
          simp [onClientDisconnectedModel, hcl, heid]
        rw [hx]
        exact hinv
      · have hx : onClientDisconnectedModel s clientid =
            { entities := setEntityClient s.entities eid none,
              ownerOfClient := fun c => if c = clientid then none else s.ownerOfClient c } := by
          simp [onClientDisconnectedModel, onEntityLoseClient, hcl, heid]
        rw [hx]
        intro c e h
        dsimp only at h ⊢
        by_cases hc : c = clientid
        · rw [if_pos hc] at h
          exact Option.noConfusion h
        · rw [if_neg hc] at h
          obtain ⟨rec2, hrec2, cl2, hcl2, hclc⟩ := hinv c e h
          have hne : e ≠ eid := by
            intro heq
            have h2 : s.ownerOfClient clientid = some e := by rw [hcl, heq]
            exact hc (ownerInv_uniq hinv c clientid e h h2)
          rw [alookup_setEntityClient, if_neg hne]
          exact ⟨rec2, hrec2, cl2, hcl2, hclc⟩

/-- One step of the gate-disconnect sweep preserves the ownership
invariant, whatever key it examines. -/
theorem ownerInv_gateStep (g : Nat) (s : EMState) (eid : EntityID) (hinv : OwnerInv s) :
    OwnerInv (gateDiscStep g s eid) := by
  cases hrec : alookup eid s.entities with
  | none =>
      have hx : gateDiscStep g s eid = s := by simp [gateDiscStep, hrec]
      rw [hx]
      exact hinv
  | some rec =>
      cases hold : rec.client with
      | none =>
          have hx : gateDiscStep g s eid = s := by simp [gateDiscStep, hrec, hold]
          rw [hx]
          exact hinv
      | some cl =>
          by_cases hg : (cl.gateid == g) = true
          · have hx : gateDiscStep g s eid =
                { entities := setEntityClient s.entities eid none,
                  ownerOfClient := fun c => if c = cl.clientid then none else s.ownerOfClient c } := by
              simp [gateDiscStep, hrec, hold, hg, onEntityLoseClient]
            rw [hx]
            intro c e h
            dsimp only at h ⊢
            by_cases hc : c = cl.clientid
            · rw [if_pos hc] at h
              exact Option.noConfusion h
            · rw [if_neg hc] at h
              obtain ⟨rec2, hrec2, cl2, hcl2, hclc⟩ := hinv c e h
              have hne : e ≠ eid := by
                intro heq
                rw [heq] at hrec2
                have h2 := hrec.symm.trans hrec2
                injection h2 with h3
                rw [← h3, hold] at hcl2
                injection hcl2 with h4
                rw [← h4] at hclc
                exact hc hclc.symm
              rw [alookup_setEntityClient, if_neg hne]
              exact ⟨rec2, hrec2, cl2, hcl2, hclc⟩
          · have hx : gateDiscStep g s eid = s := by simp [gateDiscStep, hrec, hold, hg]
            rw [hx]
            exact hinv

/-- The whole gate-disconnect sweep preserves the ownership invariant. -/
theorem ownerInv_gateDisc (s : EMState) (g : Nat) (hinv : OwnerInv s) :
    OwnerInv (onGateDisconnectedModel s g) := by
  unfold onGateDisconnectedModel
  generalize (s.entities.map Prod.fst) = keys
  induction keys generalizing s with
  | nil => exact hinv
  | cons k rest ih =>
      rw [List.foldl_cons]
      exact ih _ (ownerInv_gateStep g s k hinv)

/-- Every event preserves the ownership invariant. -/
theorem ownerInv_apply (s : EMState) (op : EMOp) (hinv : OwnerInv s) :
    OwnerInv (applyEMOp s op) := by
  cases op with
  | create e c k => exact ownerInv_create s e c k hinv
  | setClient e cl => exact ownerInv_setClient s e cl hinv
  | destroy e => exact ownerInv_destroy s e hinv
  | clientDisconnected c => exact ownerInv_clientDisc s c hinv
  | gateDisconnected g => exact ownerInv_gateDisc s g hinv

/-- Every reachable manager state satisfies the ownership invariant. -/
theorem ownerInv_runEMOps (ops : List EMOp) : OwnerInv (runEMOps ops) := by
  rw [runEMOps]
  have hgen : ∀ (s : EMState), OwnerInv s → OwnerInv (ops.foldl applyEMOp s) := by
    induction ops with
    | nil => exact fun s h => h
    | cons op rest ih => exact fun s h => ih _ (ownerInv_apply s op h)
  refine hgen initEMState ?_
  intro c e h
  exact Option.noConfusion h

/-- Claim C10: whenever onClientDisconnected runs in any reachable state
and the ownership index maps the client to a non-nil entity id, that
entity is resident, so the unguarded dereference of the looked-up owner
never faults: every client id in the ownership index maps to a currently
resident entity. -/
theorem C10_client_disconnect_safe (ops : List EMOp) (clientid : ClientID) :
    (((runEMOps ops).ownerOfClient clientid).getD "" ≠ "") →
    (alookup (((runEMOps ops).ownerOfClient clientid).getD "")
      (runEMOps ops).entities).isSome = true := by
  intro hguard
  have hinv := ownerInv_runEMOps ops
  cases hcl : (runEMOps ops).ownerOfClient clientid with
  | none =>
      rw [hcl] at hguard
      exact absurd rfl hguard
  | some e =>
      obtain ⟨rec2, hrec2, _⟩ := hinv clientid e hcl
      simp only [Option.getD_some]
      rw [hrec2]
      rfl

/-- Witness for C10: after a migrate-in that quietly binds client c1 on
gate 7 to entity e1, the guard passes and the owner lookup succeeds. -/
theorem C10_client_disconnect_safe_witness :
    (((runEMOps [EMOp.create "e1" (some { clientid := "c1", gateid := 7 })
        ccMigrate]).ownerOfClient "c1").getD "" ≠ "") ∧
    (alookup (((runEMOps [EMOp.create "e1" (some { clientid := "c1", gateid := 7 })
        ccMigrate]).ownerOfClient "c1").getD "")
      (runEMOps [EMOp.create "e1" (some { clientid := "c1", gateid := 7 })
        ccMigrate]).entities).isSome = true := by
  refine ⟨by decide, C10_client_disconnect_safe _ "c1" (by decide)⟩

end GoworldEntity
